import Mathlib

/-!
Shallow embedding of parts of the XLA GPU runtime layer:
* the autotuning candidate selector (`PickBestResult` and its helpers) from
  `xla/service/gpu/stream_executor_util.cc`,
* the per-device mutex registry (`GetGpuMutex`) from the same file,
* the `HostMemoryTransferAsyncifier` HLO rewrite pass from
  `xla/service/host_memory_transfer_asyncifier.cc`,
* the `Thunk` base class from `xla/service/gpu/thunk.h`.

Durations are modelled in integer nanoseconds (the C++ uses `absl::Duration`,
and all inputs in scope are whole numbers of nanoseconds).
-/


namespace StreamExecutorUtil

/-- `AutotuneResult::FailureKind` (autotuning proto enum values used here). -/
inductive FailureKind where
  | UNKNOWN
  | REDZONE_MODIFIED
  | WRONG_RESULT
  | DISQUALIFIED
deriving DecidableEq, Repr

/-- `AutotuneResult::FailureResult`: a failure kind plus a message. -/
structure FailureResult where
  kind : FailureKind
  msg : String
deriving DecidableEq, Repr

/-- One autotuning measurement (`AutotuneResult` proto): run time (here in
nanoseconds), scratch-memory bytes, and an optional failure. -/
structure AutotuneResult where
  run_time : Nat
  scratch_bytes : Nat
  failure : Option FailureResult
deriving DecidableEq, Repr

/-- The filter predicate of `KeepNonFailures`: keep a result if it has no
failure or its failure kind is `WRONG_RESULT`. -/
def keepResult (r : AutotuneResult) : Bool :=
  match r.failure with
  | none => true
  | some f => f.kind == FailureKind.WRONG_RESULT

/-- `KeepNonFailures`: filter out all failures except `WRONG_RESULT`. -/
def KeepNonFailures (profile_results : List AutotuneResult) : List AutotuneResult :=
  profile_results.filter keepResult

/-- The failure message of a result; the proto default is the empty string
when no failure is set (the C++ `result.failure().msg()`). -/
def failureMsg (r : AutotuneResult) : String :=
  match r.failure with
  | none => ""
  | some f => f.msg

/-- Errors of `PickBestResult`. The C++ formats both as `InternalError`
strings; we keep the per-algorithm failure messages of
`AllAlgorithmsFailedInternalError` as a list. -/
inductive PickError where
  | noAlgorithmSupplied
  | allAlgorithmsFailed (msgs : List String)
deriving DecidableEq, Repr

/-- Insert a result into a list sorted by ascending `run_time` (the model of
`absl::c_sort` with the run-time comparator in
`SortAutotuningResultsByRunTime`). -/
def insertByRunTime (r : AutotuneResult) : List AutotuneResult → List AutotuneResult
  | [] => [r]
  | x :: xs => if r.run_time ≤ x.run_time then r :: x :: xs else x :: insertByRunTime r xs

/-- `SortAutotuningResultsByRunTime`: sort by ascending run time. -/
def SortAutotuningResultsByRunTime (results : List AutotuneResult) : List AutotuneResult :=
  results.foldr insertByRunTime []

/-- The measurement-error window width: 2 microseconds, in nanoseconds. -/
def kMeasurementError : Nat := 2000

/-- `TopResultsWithinMeasurementError`: on a list sorted by run time, the
prefix of entries whose run time does not exceed the front's run time plus
the measurement error (the C++ takes the span up to the first entry whose
run time exceeds the limit). -/
def TopResultsWithinMeasurementError (results_sorted_by_runtime : List AutotuneResult) :
    List AutotuneResult :=
  match results_sorted_by_runtime with
  | [] => []
  | front :: _ =>
    results_sorted_by_runtime.takeWhile
      (fun x => decide (x.run_time ≤ front.run_time + kMeasurementError))

/-- First element with minimal `scratch_bytes` (the model of
`absl::c_min_element`, which keeps the first of equal elements). -/
def minByScratch (front : AutotuneResult) (rest : List AutotuneResult) : AutotuneResult :=
  rest.foldl (fun best x => if x.scratch_bytes < best.scratch_bytes then x else best) front

/-- `PickBestResult`. The determinism flag models `RequireDeterminism`
(an environment/config read, passed here as an argument). The branch for an
empty window never fires: the window always holds the front of the sorted
nonempty list (in C++ this is `front()`/`min_element` on a provably
nonempty range). -/
def PickBestResult (profile_results : List AutotuneResult) (deterministic : Bool) :
    Except PickError AutotuneResult :=
  if profile_results.isEmpty then Except.error PickError.noAlgorithmSupplied
  else
    match KeepNonFailures profile_results with
    | [] => Except.error (PickError.allAlgorithmsFailed (profile_results.map failureMsg))
    | r :: rs =>
      if deterministic then Except.ok r
      else
        match TopResultsWithinMeasurementError (SortAutotuningResultsByRunTime (r :: rs)) with
        | [] => Except.ok r
        | t :: ts => Except.ok (minByScratch t ts)

/-- A device identity: the `(const se::Platform*, device_ordinal)` pair keying
the mutex map in `GetGpuMutex`. Platforms are global singletons, modelled by
an id. -/
structure DeviceKey where
  platform : Nat
  ordinal : Int
deriving DecidableEq, Repr

/-- The state behind `GetGpuMutex`: the static
`std::map<std::pair<const se::Platform*, int64_t>, absl::Mutex>`. A mutex
object's identity is modelled by the `Nat` it is mapped to; fresh mutexes
receive the fresh id `next`. -/
structure MutexRegistry where
  entries : List (DeviceKey × Nat)
  next : Nat
deriving DecidableEq, Repr

/-- The registry at process start: the empty map. -/
def MutexRegistry.init : MutexRegistry := ⟨[], 0⟩

/-- Lookup of a key in the association list (first match). -/
def lookupKey (k : DeviceKey) : List (DeviceKey × Nat) → Option Nat
  | [] => none
  | (k', v) :: rest => if k' = k then some v else lookupKey k rest

/-- `GetGpuMutex`: under the global lock, `emplace` the key with a
default-constructed mutex (a no-op when the key is present) and return a
reference to the mapped mutex. Returns the mutex id and the updated
registry. -/
def GetGpuMutex (reg : MutexRegistry) (k : DeviceKey) : Nat × MutexRegistry :=
  match lookupKey k reg.entries with
  | some id => (id, reg)
  | none => (reg.next, ⟨reg.entries ++ [(k, reg.next)], reg.next + 1⟩)

/-- Well-formedness of the registry state, true of `MutexRegistry.init` and
preserved by `GetGpuMutex`: every stored mutex id is below the fresh
counter, and distinct entries hold distinct mutex ids. -/
def MutexRegistry.WF (reg : MutexRegistry) : Prop :=
  (∀ p ∈ reg.entries, p.2 < reg.next) ∧
    reg.entries.Pairwise (fun p q => p.2 ≠ q.2)

end StreamExecutorUtil

namespace GpuThunk

/-- `Thunk::Kind`: the closed tag set of execution-unit kinds. -/
inductive Kind where
  | kCholesky
  | kConditional
  | kConvolution
  | kConvolutionReorder
  | kCopy
  | kCommandBuffer
  | kCubSort
  | kCublasLtMatmul
  | kCustomCall
  | kCustomKernel
  | kFft
  | kFor
  | kGemm
  | kInfeed
  | kKernel
  | kMemset32BitValue
  | kMemzero
  | kNcclAllGather
  | kNcclAllGatherStart
  | kNcclAllGatherDone
  | kNcclAllReduce
  | kNcclAllReduceStart
  | kNcclAllReduceDone
  | kNcclCollectivePermute
  | kNcclCollectivePermuteStart
  | kNcclCollectivePermuteDone
  | kNcclReduceScatter
  | kNcclReduceScatterStart
  | kNcclReduceScatterDone
  | kNcclAllToAll
  | kNcclAllToAllStart
  | kNcclAllToAllDone
  | kNcclSend
  | kNcclRecv
  | kNorm
  | kOutfeed
  | kPartitionId
  | kRecv
  | kRecvDone
  | kReplicaId
  | kSequential
  | kSend
  | kSendDone
  | kTriangularSolve
  | kWhile
  | kFusedMHA
deriving DecidableEq, Repr

/-- `Thunk::ThunkInfo`: the profile annotation string and the (possibly
null) `mlir::Operation*` compile-time reference, modelled as an optional
node id. -/
structure ThunkInfo where
  profileAnnotation : String
  op : Option Nat
deriving DecidableEq, Repr

/-- The `Thunk` base-class state: `kind_`, `profile_annotation_`, `op_`. -/
structure Thunk where
  kind : Kind
  profileAnnotation : String
  op : Option Nat
deriving DecidableEq, Repr

/-- The `Thunk(Kind, ThunkInfo)` constructor. -/
def Thunk.make (kind : Kind) (thunk_info : ThunkInfo) : Thunk :=
  ⟨kind, thunk_info.profileAnnotation, thunk_info.op⟩

/-- `Thunk::ClearCompileTimeInfo`: `op_ = nullptr`. -/
def Thunk.ClearCompileTimeInfo (t : Thunk) : Thunk :=
  { t with op := none }

end GpuThunk

namespace HostMemoryTransferAsyncifier

/-- A layout; the pass only reads its `memory_space` (an `int64_t` color). -/
structure Layout where
  memory_space : Int
deriving DecidableEq, Repr

/-- `xla::Layout::kDefaultMemorySpace`: device memory. -/
def kDefaultMemorySpace : Int := 0

/-- The XLA primitive-type code `U32`. -/
def U32 : Nat := 8

/-- The XLA primitive-type code `S32`. -/
def S32 : Nat := 4

/-- A shape: an array shape (primitive type, dimensions, optional layout) or
a tuple shape. -/
inductive Shape where
  | array (elementType : Nat) (dims : List Nat) (layout : Option Layout)
  | tuple (elements : List Shape)

/-- `Shape::has_layout`. Tuple shapes carry no layout of their own. -/
def Shape.hasLayout : Shape → Bool
  | Shape.array _ _ l => l.isSome
  | Shape.tuple _ => false

/-- `shape.layout().memory_space()`; only read after a `hasLayout` check, so
the fallback branch is never reached in the pass. -/
def Shape.memorySpace : Shape → Int
  | Shape.array _ _ (some l) => l.memory_space
  | _ => kDefaultMemorySpace

/-- `ShapeUtil::MakeScalarShape(U32)`: a scalar with the default layout (in
device memory space). -/
def contextShape : Shape := Shape.array U32 [] (some ⟨kDefaultMemorySpace⟩)

/-- `ShapeUtil::MakeScalarShape(S32)`. -/
def transferBytesShape : Shape := Shape.array S32 [] (some ⟨kDefaultMemorySpace⟩)

/-- The HLO opcodes the pass distinguishes; all others behave alike under
the default visitor action and are collapsed into `kOther`. -/
inductive HloOpcode where
  | kDynamicSlice
  | kDynamicUpdateSlice
  | kCopy
  | kCopyStart
  | kCopyDone
  | kAsyncStart
  | kAsyncDone
  | kParameter
  | kOther
deriving DecidableEq, Repr

/-- An HLO instruction: a stable id, a name, an opcode, operand ids, and a
result shape. -/
structure Instruction where
  id : Nat
  name : String
  opcode : HloOpcode
  operands : List Nat
  shape : Shape

/-- An HLO computation: its instruction store, root id, and the fresh-id
counter used when new instructions are added. -/
structure Computation where
  instructions : List Instruction
  root : Nat
  nextId : Nat

/-- Look up an instruction by id. -/
def Computation.find (comp : Computation) (id : Nat) : Option Instruction :=
  comp.instructions.find? (fun i => i.id == id)

/-- `HloComputation::AddInstruction`: append a fresh instruction; returns
the grown computation and the new instruction's id. -/
def Computation.addInstruction (comp : Computation) (name : String)
    (opcode : HloOpcode) (operands : List Nat) (shape : Shape) : Computation × Nat :=
  (⟨comp.instructions ++ [⟨comp.nextId, name, opcode, operands, shape⟩],
    comp.root, comp.nextId + 1⟩, comp.nextId)

/-- Redirect one instruction's operand references from `oldId` to `newId`. -/
def Instruction.redirect (i : Instruction) (oldId newId : Nat) : Instruction :=
  { i with operands := i.operands.map (fun o => if o = oldId then newId else o) }

/-- Modelled from the spec: `HloInstruction::ReplaceAllUsesWith` is code of
this repository not under src/. Per the spec, all consumers of the original
instruction are redirected to the replacement; when the original is the
computation root, the root becomes the replacement. -/
def Computation.replaceAllUsesWith (comp : Computation) (oldId newId : Nat) : Computation :=
  { comp with
    instructions := comp.instructions.map (fun i => i.redirect oldId newId),
    root := if comp.root = oldId then newId else comp.root }

/-- Remove the instruction with the given id from the store. -/
def Computation.removeInstruction (comp : Computation) (id : Nat) : Computation :=
  { comp with instructions := comp.instructions.filter (fun i => i.id != id) }

/-- Modelled from the spec: `HloComputation::CreateAsyncInstructions` (used
by the dynamic-slice and dynamic-update-slice handlers) is code of this
repository not under src/. Per the spec, it introduces a start operation
that emits the original result shape plus the given metadata shapes, a
paired done operation that consumes that bundle and yields the original
instruction's shape, redirects all consumers of the original instruction to
the done operation, and removes the original instruction. Returns the new
computation and the done instruction's id. -/
def Computation.createAsyncInstructions (comp : Computation) (instr : Instruction)
    (contextShapes : List Shape) : Computation × Nat :=
  let res1 := comp.addInstruction (instr.name ++ "-start") HloOpcode.kAsyncStart
    instr.operands (Shape.tuple (instr.shape :: contextShapes))
  let res2 := res1.1.addInstruction (instr.name ++ "-done") HloOpcode.kAsyncDone
    [res1.2] instr.shape
  let comp3 := res2.1.replaceAllUsesWith instr.id res2.2
  (comp3.removeInstruction instr.id, res2.2)

/-- `HostMemoryTransferAsyncifierVisitor::HandleDynamicSlice`. In valid HLO
the operand reference always resolves (`mutable_operand(0)`); a dangling
reference is modelled as a skip and ruled out by the well-formedness
hypotheses of the theorems. -/
def handleDynamicSlice (hostColor : Int) (comp : Computation)
    (dynamic_slice : Instruction) : Except String (Computation × Bool) :=
  match dynamic_slice.operands.head? with
  | none => Except.ok (comp, false)
  | some oid =>
    match comp.find oid with
    | none => Except.ok (comp, false)
    | some dynamic_slice_operand =>
      if ¬ dynamic_slice.shape.hasLayout then
        Except.error (dynamic_slice.name ++ " does not have a layout.")
      else if ¬ dynamic_slice_operand.shape.hasLayout then
        Except.error (dynamic_slice.name ++ "'s operand, " ++
          dynamic_slice_operand.name ++ ", does not have a layout.")
      else if dynamic_slice_operand.shape.memorySpace ≠ hostColor then
        Except.ok (comp, false)
      else if dynamic_slice.shape.memorySpace ≠ kDefaultMemorySpace then
        Except.ok (comp, false)
      else
        Except.ok ((comp.createAsyncInstructions dynamic_slice
          [contextShape, transferBytesShape]).1, true)

/-- `HostMemoryTransferAsyncifierVisitor::HandleDynamicUpdateSlice`. -/
def handleDynamicUpdateSlice (hostColor : Int) (comp : Computation)
    (dus : Instruction) : Except String (Computation × Bool) :=
  match dus.operands.head? with
  | none => Except.ok (comp, false)
  | some oid =>
    match dus.operands[1]? with
    | none => Except.ok (comp, false)
    | some uid =>
      match comp.find oid with
      | none => Except.ok (comp, false)
      | some dus_operand =>
        match comp.find uid with
        | none => Except.ok (comp, false)
        | some dus_update =>
          if ¬ dus.shape.hasLayout then
            Except.error (dus.name ++ " does not have a layout.")
          else if ¬ dus_operand.shape.hasLayout then
            Except.error (dus.name ++ "'s operand, " ++ dus_operand.name ++
              ", does not have a layout.")
          else if ¬ dus_update.shape.hasLayout then
            Except.error (dus.name ++ "'s update, " ++ dus_update.name ++
              ", does not have a layout.")
          else if dus_update.shape.memorySpace ≠ kDefaultMemorySpace then
            Except.ok (comp, false)
          else if dus.shape.memorySpace ≠ hostColor then
            Except.ok (comp, false)
          else if dus_operand.shape.memorySpace ≠ dus.shape.memorySpace then
            Except.error ("Unexpected that " ++ dus_operand.name ++
              "'s memory space is not the same as the dynamic-update-slice.")
          else
            Except.ok ((comp.createAsyncInstructions dus [contextShape]).1, true)

/-- `HostMemoryTransferAsyncifierVisitor::HandleCopy`. The copy-start/
copy-done pair is built manually (`CreateAsyncInstructions` does not work
for copy); note that the original copy instruction is not removed. -/
def handleCopy (hostColor : Int) (comp : Computation)
    (copy : Instruction) : Except String (Computation × Bool) :=
  match copy.operands.head? with
  | none => Except.ok (comp, false)
  | some oid =>
    match comp.find oid with
    | none => Except.ok (comp, false)
    | some operand =>
      if ¬ operand.shape.hasLayout then
        Except.error (operand.name ++ " does not have a layout.")
      else if ¬ copy.shape.hasLayout then
        Except.error (copy.name ++ " does not have a layout.")
      else
        let copy_src_memory_space := operand.shape.memorySpace
        let copy_dst_memory_space := copy.shape.memorySpace
        if ¬ ((copy_src_memory_space = hostColor ∧
               copy_dst_memory_space = kDefaultMemorySpace) ∨
              (copy_src_memory_space = kDefaultMemorySpace ∧
               copy_dst_memory_space = hostColor)) then
          Except.ok (comp, false)
        else
          let instruction_shape_source := operand.shape
          let instruction_shape_destination := copy.shape
          let res1 := comp.addInstruction (copy.name ++ "-start") HloOpcode.kCopyStart
            [oid] (Shape.tuple [instruction_shape_destination,
              instruction_shape_source, contextShape])
          let res2 := res1.1.addInstruction (copy.name ++ "-done") HloOpcode.kCopyDone
            [res1.2] instruction_shape_destination
          Except.ok (res2.1.replaceAllUsesWith copy.id res2.2, true)

/-- The visitor dispatch: overrides for dynamic-slice, dynamic-update-slice
and copy; `DefaultAction` (a no-op) for everything else. -/
def visitInstruction (hostColor : Int) (comp : Computation)
    (instr : Instruction) : Except String (Computation × Bool) :=
  match instr.opcode with
  | HloOpcode.kDynamicSlice => handleDynamicSlice hostColor comp instr
  | HloOpcode.kDynamicUpdateSlice => handleDynamicUpdateSlice hostColor comp instr
  | HloOpcode.kCopy => handleCopy hostColor comp instr
  | _ => Except.ok (comp, false)

/-- The walk over a fixed id snapshot: visit each instruction once in order,
skipping ids no longer present (removed by an earlier rewrite of this same
walk), stopping at the first error (`TF_RETURN_IF_ERROR`) with the graph as
mutated so far. -/
def RunAux (hostColor : Int) : List Nat → Computation → Bool → Computation × Except String Bool
  | [], comp, changed => (comp, Except.ok changed)
  | id :: rest, comp, changed =>
    match comp.find id with
    | none => RunAux hostColor rest comp changed
    | some instr =>
      match visitInstruction hostColor comp instr with
      | Except.error e => (comp, Except.error e)
      | Except.ok (comp', ch) => RunAux hostColor rest comp' (changed || ch)

/-- `HostMemoryTransferAsyncifier::Run` on one computation. The traversal
driver (`HloComputation::Accept` over `MakeNonfusionComputations`) is code
of this repository not under src/ and is modelled from the spec: the pass
"walks every instruction ... once, via a default-no-op dispatch"; we
snapshot the instruction ids present at entry and visit each once. The
mutated computation is returned alongside the status (the C++ mutates the
module in place), with `changed` reported on success. -/
def Run (hostColor : Int) (comp : Computation) : Computation × Except String Bool :=
  RunAux hostColor (comp.instructions.map (fun i => i.id)) comp false

/-- Well-formedness of a computation, as guaranteed by verified HLO: ids are
unique and below the fresh counter, operand references resolve, and no
instruction is its own operand. -/
def Computation.WF (c : Computation) : Prop :=
  (∀ i ∈ c.instructions, i.id < c.nextId) ∧
  (c.instructions.map (fun i => i.id)).Nodup ∧
  (∀ i ∈ c.instructions, ∀ oid ∈ i.operands, ∃ j ∈ c.instructions, j.id = oid) ∧
  (∀ i ∈ c.instructions, ∀ oid ∈ i.operands, oid ≠ i.id)

/-- The host memory space color used in the concrete examples (the pass's
constructor parameter `kHostMemorySpaceColor`). -/
def exHostColor : Int := 5

/-- Example: a parameter living in host memory (space 5). -/
def exParamHost : Instruction :=
  ⟨0, "p", HloOpcode.kParameter, [], Shape.array 1 [4] (some ⟨5⟩)⟩

/-- Example: a copy of the host parameter into device memory (space 0). -/
def exCopy : Instruction :=
  ⟨1, "cp", HloOpcode.kCopy, [0], Shape.array 1 [4] (some ⟨0⟩)⟩

/-- Example: a consumer of the copy. -/
def exUser : Instruction :=
  ⟨2, "u", HloOpcode.kOther, [1], Shape.array 1 [4] (some ⟨0⟩)⟩

/-- Example computation with a rewritable host-to-device copy and one
consumer. -/
def exCopyComp : Computation := ⟨[exParamHost, exCopy, exUser], 2, 3⟩

/-- Example: a second host parameter (id 2). -/
def exParamHost2 : Instruction :=
  ⟨2, "q", HloOpcode.kParameter, [], Shape.array 1 [4] (some ⟨5⟩)⟩

/-- Example: a dynamic-slice whose result shape is missing its layout. -/
def exBadSlice : Instruction :=
  ⟨3, "ds", HloOpcode.kDynamicSlice, [2], Shape.array 1 [2] none⟩

/-- Example computation in which a rewritable copy is visited before a
dynamic-slice that is missing a layout. -/
def exErrComp : Computation := ⟨[exParamHost, exCopy, exParamHost2, exBadSlice], 3, 4⟩

/-- Example: a dynamic-slice from host memory to device memory with layouts
present. -/
def exSlice : Instruction :=
  ⟨1, "ds", HloOpcode.kDynamicSlice, [0], Shape.array 1 [2] (some ⟨0⟩)⟩

/-- Example copy-free computation with one rewritable dynamic-slice. -/
def exSliceComp : Computation := ⟨[exParamHost, exSlice], 1, 2⟩

/-- Example: a copy from host memory (space 5) into a third memory space
(space 2) that is neither host nor default. -/
def exCopyThird : Instruction :=
  ⟨1, "cp", HloOpcode.kCopy, [0], Shape.array 1 [4] (some ⟨2⟩)⟩

/-- Example computation holding the host-to-third-space copy. -/
def exCopyThirdComp : Computation := ⟨[exParamHost, exCopyThird], 1, 2⟩

end HostMemoryTransferAsyncifier

namespace StreamExecutorUtil

theorem insertByRunTime_perm (r : AutotuneResult) (l : List AutotuneResult) :
    List.Perm (insertByRunTime r l) (r :: l) := by
  induction l with
  | nil => exact List.Perm.refl _
  | cons x xs ih =>
    by_cases h : r.run_time ≤ x.run_time
    · simp [insertByRunTime, h]
    · simp only [insertByRunTime, if_neg h]
      exact (ih.cons x).trans (List.Perm.swap r x xs)

theorem sortAutotuningResults_perm (l : List AutotuneResult) :
    List.Perm (SortAutotuningResultsByRunTime l) l := by
  induction l with
  | nil => exact List.Perm.refl _
  | cons x xs ih =>
    simp only [SortAutotuningResultsByRunTime, List.foldr_cons]
    exact (insertByRunTime_perm x _).trans (ih.cons x)

/-- Sorted by ascending run time. -/
def RunTimeSorted (l : List AutotuneResult) : Prop :=
  List.Pairwise (fun a b => a.run_time ≤ b.run_time) l

theorem insertByRunTime_sorted {l : List AutotuneResult} (r : AutotuneResult)
    (hl : RunTimeSorted l) : RunTimeSorted (insertByRunTime r l) := by
  induction l with
  | nil => simp [insertByRunTime, RunTimeSorted]
  | cons x xs ih =>
    rw [RunTimeSorted, List.pairwise_cons] at hl
    obtain ⟨hx, hxs⟩ := hl
    by_cases h : r.run_time ≤ x.run_time
    · rw [RunTimeSorted, insertByRunTime, if_pos h, List.pairwise_cons]
      refine ⟨?_, List.Pairwise.cons hx hxs⟩
      intro y hy
      rcases List.mem_cons.mp hy with hy | hy
      · exact hy ▸ h
      · exact Nat.le_trans h (hx y hy)
    · rw [RunTimeSorted, insertByRunTime, if_neg h, List.pairwise_cons]
      refine ⟨?_, ih hxs⟩
      intro y hy
      have hy' : y ∈ r :: xs := (insertByRunTime_perm r xs).mem_iff.mp hy
      rcases List.mem_cons.mp hy' with hy' | hy'
      · subst hy'
        omega
      · exact hx y hy'

theorem sortAutotuningResults_sorted (l : List AutotuneResult) :
    RunTimeSorted (SortAutotuningResultsByRunTime l) := by
  induction l with
  | nil => simp [SortAutotuningResultsByRunTime, RunTimeSorted]
  | cons x xs ih =>
    simp only [SortAutotuningResultsByRunTime, List.foldr_cons]
    exact insertByRunTime_sorted x ih

theorem sorted_head_min {s : AutotuneResult} {ss : List AutotuneResult}
    (h : RunTimeSorted (s :: ss)) : ∀ x ∈ s :: ss, s.run_time ≤ x.run_time := by
  rw [RunTimeSorted, List.pairwise_cons] at h
  intro x hx
  rcases List.mem_cons.mp hx with hx | hx
  · exact hx ▸ Nat.le_refl _
  · exact h.1 x hx

theorem sorted_mem_takeWhile {l : List AutotuneResult} {x : AutotuneResult}
    (limit : Nat) (hl : RunTimeSorted l) (hx : x ∈ l) (hle : x.run_time ≤ limit) :
    x ∈ l.takeWhile (fun a => decide (a.run_time ≤ limit)) := by
  induction l with
  | nil => cases hx
  | cons a t ih =>
    rw [RunTimeSorted, List.pairwise_cons] at hl
    by_cases ha : a.run_time ≤ limit
    · rw [List.takeWhile_cons, if_pos (by simpa using ha)]
      rcases List.mem_cons.mp hx with hx | hx
      · exact hx ▸ List.mem_cons_self _ _
      · exact List.mem_cons_of_mem _ (ih hl.2 hx)
    · rcases List.mem_cons.mp hx with hx | hx
      · exact absurd (hx ▸ hle) ha
      · exact absurd (Nat.le_trans (hl.1 x hx) hle) ha

theorem topResults_cons (s : AutotuneResult) (ss : List AutotuneResult) :
    TopResultsWithinMeasurementError (s :: ss) =
      s :: ss.takeWhile (fun x => decide (x.run_time ≤ s.run_time + kMeasurementError)) := by
  rw [TopResultsWithinMeasurementError, List.takeWhile_cons,
    if_pos (by simp)]

theorem minByScratch_cons (t x : AutotuneResult) (ts : List AutotuneResult) :
    minByScratch t (x :: ts) =
      minByScratch (if x.scratch_bytes < t.scratch_bytes then x else t) ts := rfl

theorem minByScratch_le : ∀ (ts : List AutotuneResult) (t : AutotuneResult),
    ∀ x ∈ t :: ts, (minByScratch t ts).scratch_bytes ≤ x.scratch_bytes := by
  intro ts
  induction ts with
  | nil =>
    intro t x hx
    rcases List.mem_cons.mp hx with hx | hx
    · exact hx ▸ Nat.le_refl _
    · cases hx
  | cons a ts ih =>
    intro t x hx
    rw [minByScratch_cons]
    by_cases h : a.scratch_bytes < t.scratch_bytes
    · rw [if_pos h]
      rcases List.mem_cons.mp hx with hx | hx
      · subst hx
        exact Nat.le_of_lt (lt_of_le_of_lt (ih a a (List.mem_cons_self a ts)) h)
      · exact ih a x hx
    · rw [if_neg h]
      rcases List.mem_cons.mp hx with hx | hx
      · subst hx
        exact ih x x (List.mem_cons_self x ts)
      · rcases List.mem_cons.mp hx with hx | hx
        · subst hx
          exact Nat.le_trans (ih t t (List.mem_cons_self t ts)) (Nat.le_of_not_lt h)
        · exact ih t x (List.mem_cons_of_mem _ hx)

theorem minByScratch_mem : ∀ (ts : List AutotuneResult) (t : AutotuneResult),
    minByScratch t ts ∈ t :: ts := by
  intro ts
  induction ts with
  | nil => exact fun t => List.mem_cons_self t []
  | cons a ts ih =>
    intro t
    rw [minByScratch_cons]
    by_cases h : a.scratch_bytes < t.scratch_bytes
    · rw [if_pos h]
      rcases List.mem_cons.mp (ih a) with hx | hx
      · rw [hx]
        exact List.mem_cons_of_mem _ (List.mem_cons_self a ts)
      · exact List.mem_cons_of_mem _ (List.mem_cons_of_mem _ hx)
    · rw [if_neg h]
      rcases List.mem_cons.mp (ih t) with hx | hx
      · rw [hx]
        exact List.mem_cons_self t (a :: ts)
      · exact List.mem_cons_of_mem _ (List.mem_cons_of_mem _ hx)

theorem minByScratch_split : ∀ (ts : List AutotuneResult) (t : AutotuneResult),
    ∃ w1 w2, t :: ts = w1 ++ minByScratch t ts :: w2 ∧
      (∀ x ∈ w1, (minByScratch t ts).scratch_bytes < x.scratch_bytes) ∧
      (∀ x ∈ w2, (minByScratch t ts).scratch_bytes ≤ x.scratch_bytes) := by
  intro ts
  induction ts with
  | nil =>
    intro t
    exact ⟨[], [], rfl, by simp, by simp⟩
  | cons a ts ih =>
    intro t
    rw [minByScratch_cons]
    by_cases h : a.scratch_bytes < t.scratch_bytes
    · rw [if_pos h]
      obtain ⟨w1, w2, heq, h1, h2⟩ := ih a
      have hmle : (minByScratch a ts).scratch_bytes ≤ a.scratch_bytes :=
        minByScratch_le ts a a (List.mem_cons_self a ts)
      refine ⟨t :: w1, w2, ?_, ?_, h2⟩
      · simpa using heq
      · intro x hx
        rcases List.mem_cons.mp hx with hx | hx
        · exact hx ▸ lt_of_le_of_lt hmle h
        · exact h1 x hx
    · rw [if_neg h]
      obtain ⟨w1, w2, heq, h1, h2⟩ := ih t
      cases w1 with
      | nil =>
        simp only [List.nil_append] at heq
        have heq1 : minByScratch t ts = t := by
          injection heq with h1' h2'
          exact h1'.symm
        have heq2 : ts = w2 := by
          injection heq with h1' h2'
        refine ⟨[], a :: ts, by simp [heq1], by simp, ?_⟩
        intro x hx
        rcases List.mem_cons.mp hx with hx | hx
        · subst hx
          rw [heq1]
          exact Nat.le_of_not_lt h
        · exact h2 x (heq2 ▸ hx)
      | cons b w1' =>
        have hb : b = t ∧ ts = w1' ++ minByScratch t ts :: w2 := by
          rw [List.cons_append] at heq
          injection heq with h1' h2'
          exact ⟨h1'.symm, h2'⟩
        refine ⟨t :: a :: w1', w2, ?_, ?_, h2⟩
        · rw [List.cons_append, List.cons_append, ← hb.2]
        · intro x hx
          have hmt : (minByScratch t ts).scratch_bytes < t.scratch_bytes := by
            apply h1
            rw [← hb.1]
            exact List.mem_cons_self b w1'
          rcases List.mem_cons.mp hx with hx | hx
          · exact hx ▸ hmt
          · rcases List.mem_cons.mp hx with hx | hx
            · subst hx
              exact lt_of_lt_of_le hmt (Nat.le_of_not_lt h)
            · exact h1 x (hb.1 ▸ List.mem_cons_of_mem b hx)

/-- C7: with determinism required, `PickBestResult` returns the first entry
that survives the filter (no failure, or failure kind WRONG_RESULT), in
original input order, irrespective of durations and scratch bytes. -/
theorem pickBestResult_deterministic_first (pre post : List AutotuneResult)
    (r : AutotuneResult) (hpre : ∀ x ∈ pre, keepResult x = false)
    (hr : keepResult r = true) :
    PickBestResult (pre ++ r :: post) true = Except.ok r := by
  have h1 : pre.filter keepResult = [] := by
    rw [List.filter_eq_nil_iff]
    intro a ha
    simp [hpre a ha]
  have hfil : KeepNonFailures (pre ++ r :: post) = r :: KeepNonFailures post := by
    simp [KeepNonFailures, List.filter_append, h1, List.filter_cons, hr]
  have hne : (pre ++ r :: post).isEmpty = false := by simp
  unfold PickBestResult
  rw [hne]
  simp only [Bool.false_eq_true, if_false]
  split
  · next heq => rw [hfil] at heq; cases heq
  · next r' rs heq =>
    rw [hfil] at heq
    injection heq with heq1 heq2
    simp [heq1]

/-- Witness for C7: a list whose first two entries fail (REDZONE_MODIFIED)
followed by a kept entry; the kept entry is returned regardless of its slow
run time. -/
theorem pickBestResult_deterministic_first_witness :
    PickBestResult
      [⟨100, 7, some ⟨FailureKind.REDZONE_MODIFIED, "rz"⟩⟩,
       ⟨200, 8, some ⟨FailureKind.DISQUALIFIED, "dq"⟩⟩,
       ⟨99999, 9, none⟩, ⟨1, 0, none⟩] true = Except.ok ⟨99999, 9, none⟩ :=
  pickBestResult_deterministic_first
    [⟨100, 7, some ⟨FailureKind.REDZONE_MODIFIED, "rz"⟩⟩,
     ⟨200, 8, some ⟨FailureKind.DISQUALIFIED, "dq"⟩⟩]
    [⟨1, 0, none⟩] ⟨99999, 9, none⟩ (by decide) (by decide)

/-- C6: `PickBestResult` fails exactly in two cases: an empty input list
(NoCandidates, here `noAlgorithmSupplied`), and a non-empty list in which
every entry has a failure of a kind other than WRONG_RESULT
(`allAlgorithmsFailed`, whose message holds every original entry's failure
message); in every other case it returns a result. -/
theorem pickBestResult_error_cases (l : List AutotuneResult) (det : Bool) :
    (PickBestResult [] det = Except.error PickError.noAlgorithmSupplied) ∧
    (l ≠ [] →
      (∀ r ∈ l, ∃ f, r.failure = some f ∧ f.kind ≠ FailureKind.WRONG_RESULT) →
      PickBestResult l det =
        Except.error (PickError.allAlgorithmsFailed (l.map failureMsg)) ∧
      ∀ r ∈ l, ∀ f, r.failure = some f → f.msg ∈ l.map failureMsg) ∧
    (l ≠ [] → (∃ r ∈ l, keepResult r = true) →
      ∃ x, PickBestResult l det = Except.ok x) := by
  refine ⟨rfl, ?_, ?_⟩
  · intro hne hall
    have hfil : KeepNonFailures l = [] := by
      rw [KeepNonFailures, List.filter_eq_nil_iff]
      intro a ha
      obtain ⟨f, hf, hk⟩ := hall a ha
      simp [keepResult, hf, hk]
    have hemp : l.isEmpty = false := by
      cases l with
      | nil => exact absurd rfl hne
      | cons a t => rfl
    refine ⟨?_, ?_⟩
    · unfold PickBestResult
      rw [hemp]
      simp only [Bool.false_eq_true, if_false]
      split
      · rfl
      · next r' rs heq => rw [hfil] at heq; cases heq
    · intro r hr f hf
      have : failureMsg r = f.msg := by simp [failureMsg, hf]
      exact this ▸ List.mem_map_of_mem failureMsg hr
  · intro hne hkeep
    obtain ⟨r, hr, hkr⟩ := hkeep
    have hrf : r ∈ KeepNonFailures l := List.mem_filter.mpr ⟨hr, hkr⟩
    have hemp : l.isEmpty = false := by
      cases l with
      | nil => exact absurd rfl hne
      | cons a t => rfl
    unfold PickBestResult
    rw [hemp]
    simp only [Bool.false_eq_true, if_false]
    split
    · next heq => rw [heq] at hrf; cases hrf
    · next f0 frest heq =>
      cases det with
      | true => exact ⟨f0, by simp⟩
      | false =>
        simp only [Bool.false_eq_true, if_false]
        split
        · exact ⟨f0, rfl⟩
        · exact ⟨_, rfl⟩

/-- Witness for C6: a two-entry list whose failures are both of non-WRONG_RESULT
kinds yields the enumerate-all-failures error. -/
theorem pickBestResult_error_cases_witness :
    PickBestResult
      [⟨100, 0, some ⟨FailureKind.REDZONE_MODIFIED, "m1"⟩⟩,
       ⟨200, 0, some ⟨FailureKind.UNKNOWN, "m2"⟩⟩] false =
      Except.error (PickError.allAlgorithmsFailed ["m1", "m2"]) :=
  ((pickBestResult_error_cases
      [⟨100, 0, some ⟨FailureKind.REDZONE_MODIFIED, "m1"⟩⟩,
       ⟨200, 0, some ⟨FailureKind.UNKNOWN, "m2"⟩⟩] false).2.1
    (by decide)
    (fun r hr => by
      rcases List.mem_cons.mp hr with h | h
      · exact ⟨⟨FailureKind.REDZONE_MODIFIED, "m1"⟩, by rw [h], by decide⟩
      · rcases List.mem_cons.mp h with h | h
        · exact ⟨⟨FailureKind.UNKNOWN, "m2"⟩, by rw [h], by decide⟩
        · cases h)).1

/-- The candidate list of the C1 example: durations 10, 10.5, 11, 50
microseconds (in nanoseconds) with scratch bytes 100, 10, 5, 1; none
failing. -/
def c1Results : List AutotuneResult :=
  [⟨10000, 100, none⟩, ⟨10500, 10, none⟩, ⟨11000, 5, none⟩, ⟨50000, 1, none⟩]

/-- C1: on the example list, non-deterministic selection returns the entry
with duration 11 microseconds and scratch 5; in general, whenever
`PickBestResult` (non-deterministic) returns a result, that result survives
the filter, lies within 2 microseconds of the minimal surviving duration,
has the smallest scratch-byte count among the surviving entries in that
window, and is the first entry with that scratch count in the sorted
window. -/
theorem pickBestResult_window_tiebreak :
    (PickBestResult c1Results false = Except.ok ⟨11000, 5, none⟩) ∧
    (∀ (l : List AutotuneResult) (r : AutotuneResult),
      PickBestResult l false = Except.ok r →
      r ∈ KeepNonFailures l ∧
      (∃ m ∈ KeepNonFailures l,
        (∀ x ∈ KeepNonFailures l, m.run_time ≤ x.run_time) ∧
        r.run_time ≤ m.run_time + kMeasurementError ∧
        (∀ x ∈ KeepNonFailures l, x.run_time ≤ m.run_time + kMeasurementError →
          r.scratch_bytes ≤ x.scratch_bytes)) ∧
      (∃ w1 w2,
        TopResultsWithinMeasurementError
            (SortAutotuningResultsByRunTime (KeepNonFailures l)) = w1 ++ r :: w2 ∧
        (∀ x ∈ w1, r.scratch_bytes < x.scratch_bytes) ∧
        (∀ x ∈ w2, r.scratch_bytes ≤ x.scratch_bytes))) := by
  constructor
  · rfl
  · intro l r h
    unfold PickBestResult at h
    cases hemp : l.isEmpty with
    | true => rw [hemp] at h; simp at h
    | false =>
      rw [hemp] at h
      simp only [Bool.false_eq_true, if_false] at h
      split at h
      · cases h
      · next f0 frest hfil =>
        have hperm := sortAutotuningResults_perm (f0 :: frest)
        have hsorted := sortAutotuningResults_sorted (f0 :: frest)
        obtain ⟨s, ss, hsort⟩ := List.exists_cons_of_ne_nil
          (l := SortAutotuningResultsByRunTime (f0 :: frest))
          (fun hc => by
            have := hperm.length_eq
            rw [hc] at this
            simp at this)
        rw [hsort] at hsorted
        split at h
        · next heq2 =>
          rw [hsort, topResults_cons] at heq2
          cases heq2
        · next t ts heq2 =>
          rw [hsort, topResults_cons] at heq2
          injection heq2 with hts1 hts2
          subst hts1
          subst hts2
          injection h with h
          set limit := s.run_time + kMeasurementError with hlimit
          set tw := ss.takeWhile (fun x => decide (x.run_time ≤ limit)) with htw
          have htop : TopResultsWithinMeasurementError
              (SortAutotuningResultsByRunTime (KeepNonFailures l)) = s :: tw := by
            rw [hfil, hsort, topResults_cons]
          have hmemsorted : ∀ x, x ∈ s :: ss ↔ x ∈ KeepNonFailures l := by
            intro x
            rw [hfil, ← hsort]
            exact hperm.mem_iff
          have hrmem_top : r ∈ s :: tw := by
            rw [← h]
            exact minByScratch_mem tw s
          have hr_top_le : r.run_time ≤ limit := by
            rcases List.mem_cons.mp hrmem_top with hx | hx
            · rw [hx, hlimit]
              exact Nat.le_add_right _ _
            · have := List.mem_takeWhile_imp hx
              simpa using this
          have htw_sub : ∀ x ∈ s :: tw, x ∈ s :: ss := by
            intro x hx
            rcases List.mem_cons.mp hx with hx | hx
            · exact hx ▸ List.mem_cons_self _ _
            · exact List.mem_cons_of_mem _ ((List.takeWhile_sublist _).subset hx)
          refine ⟨?_, ⟨s, ?_, ?_, hr_top_le, ?_⟩, ?_⟩
          · exact (hmemsorted r).mp (htw_sub r hrmem_top)
          · exact (hmemsorted s).mp (List.mem_cons_self _ _)
          · intro x hx
            exact sorted_head_min hsorted x ((hmemsorted x).mpr hx)
          · intro x hx hxle
            have hxs : x ∈ s :: ss := (hmemsorted x).mpr hx
            have hxtop : x ∈ s :: tw := by
              have := sorted_mem_takeWhile limit hsorted hxs hxle
              rwa [List.takeWhile_cons, if_pos (by simp [hlimit])] at this
            rw [← h]
            exact minByScratch_le tw s x hxtop
          · rw [htop, ← h]
            exact minByScratch_split tw s

/-- Witness for C1's general part, instantiated on the example list: the
chosen entry is a surviving candidate. -/
theorem pickBestResult_window_tiebreak_witness :
    (⟨11000, 5, none⟩ : AutotuneResult) ∈ KeepNonFailures c1Results :=
  (pickBestResult_window_tiebreak.2 c1Results ⟨11000, 5, none⟩
    pickBestResult_window_tiebreak.1).1

end StreamExecutorUtil

namespace StreamExecutorUtil

theorem lookupKey_append (k : DeviceKey) (l₁ l₂ : List (DeviceKey × Nat)) :
    lookupKey k (l₁ ++ l₂) =
      match lookupKey k l₁ with
      | some v => some v
      | none => lookupKey k l₂ := by
  induction l₁ with
  | nil => simp [lookupKey]
  | cons p rest ih =>
    obtain ⟨k', v⟩ := p
    by_cases h : k' = k <;> simp [lookupKey, h, ih]

theorem lookupKey_mem {k : DeviceKey} {l : List (DeviceKey × Nat)} {v : Nat}
    (h : lookupKey k l = some v) : (k, v) ∈ l := by
  induction l with
  | nil => simp [lookupKey] at h
  | cons p rest ih =>
    obtain ⟨k', v'⟩ := p
    by_cases hk : k' = k
    · simp [lookupKey, hk] at h
      subst hk
      subst h
      exact List.mem_cons_self _ _
    · simp [lookupKey, hk] at h
      exact List.mem_cons_of_mem _ (ih h)

theorem lookupKey_self (k : DeviceKey) (v : Nat) : lookupKey k [(k, v)] = some v := by
  simp [lookupKey]

/-- C8: the per-device mutex registry hands back the identical mutex for a
repeated lookup of the same (platform, ordinal) pair, distinct mutexes for
distinct pairs, never drops an entry, and preserves its well-formedness
invariant. -/
theorem getGpuMutex_registry_spec (reg : MutexRegistry) (k k' : DeviceKey)
    (hwf : reg.WF) :
    (GetGpuMutex (GetGpuMutex reg k).2 k).1 = (GetGpuMutex reg k).1 ∧
    (k ≠ k' → (GetGpuMutex (GetGpuMutex reg k).2 k').1 ≠ (GetGpuMutex reg k).1) ∧
    (∀ e ∈ reg.entries, e ∈ ((GetGpuMutex reg k).2).entries) ∧
    ((GetGpuMutex reg k).2).WF := by
  obtain ⟨hlt, hpw⟩ := hwf
  have hsym : Symmetric (fun p q : DeviceKey × Nat => p.2 ≠ q.2) := by
    intro a b h
    exact fun hc => h hc.symm
  refine ⟨?_, ?_, ?_, ?_⟩
  · cases hk : lookupKey k reg.entries with
    | some v => simp [GetGpuMutex, hk]
    | none =>
      have : lookupKey k (reg.entries ++ [(k, reg.next)]) = some reg.next := by
        rw [lookupKey_append, hk, lookupKey_self]
      simp [GetGpuMutex, hk, this]
  · intro hne
    cases hk : lookupKey k reg.entries with
    | some v =>
      cases hk' : lookupKey k' reg.entries with
      | some v' =>
        intro heq
        have hm : (k, v) ∈ reg.entries := lookupKey_mem hk
        have hm' : (k', v') ∈ reg.entries := lookupKey_mem hk'
        have hpairs : ((k, v) : DeviceKey × Nat) ≠ (k', v') := by
          intro h
          exact hne (congrArg Prod.fst h)
        have := List.Pairwise.forall hsym hpw hm hm' hpairs
        simp [GetGpuMutex, hk, hk'] at heq
        exact this heq.symm
      | none =>
        intro heq
        simp [GetGpuMutex, hk, hk'] at heq
        have hm : (k, v) ∈ reg.entries := lookupKey_mem hk
        have := hlt _ hm
        omega
    | none =>
      have hk2 : lookupKey k' (reg.entries ++ [(k, reg.next)]) = lookupKey k' reg.entries := by
        rw [lookupKey_append]
        cases h : lookupKey k' reg.entries with
        | some v => simp
        | none => simp [lookupKey, hne]
      cases hk' : lookupKey k' reg.entries with
      | some v' =>
        intro heq
        simp [GetGpuMutex, hk, hk2, hk'] at heq
        have hm' : (k', v') ∈ reg.entries := lookupKey_mem hk'
        have := hlt _ hm'
        omega
      | none =>
        intro heq
        simp [GetGpuMutex, hk, hk2, hk'] at heq
  · intro e he
    cases hk : lookupKey k reg.entries with
    | some v => simpa [GetGpuMutex, hk] using he
    | none =>
      simp [GetGpuMutex, hk]
      exact Or.inl he
  · cases hk : lookupKey k reg.entries with
    | some v => simpa [GetGpuMutex, hk] using ⟨hlt, hpw⟩
    | none =>
      refine ⟨?_, ?_⟩
      · intro p hp
        simp [GetGpuMutex, hk] at hp
        rcases hp with hp | hp
        · have := hlt _ hp
          simp [GetGpuMutex, hk]
          omega
        · simp [GetGpuMutex, hk, hp]
      · simp only [GetGpuMutex, hk]
        rw [List.pairwise_append]
        refine ⟨hpw, List.pairwise_singleton _ _, ?_⟩
        intro p hp q hq
        simp at hq
        have := hlt _ hp
        subst hq
        intro h
        simp at h
        omega

/-- Witness for C8 at a concrete registry: the empty registry is well formed
and two distinct device keys receive distinct mutexes. -/
theorem getGpuMutex_registry_spec_witness :
    MutexRegistry.init.WF ∧
    (GetGpuMutex (GetGpuMutex MutexRegistry.init ⟨0, 0⟩).2 ⟨1, 0⟩).1 ≠
      (GetGpuMutex MutexRegistry.init ⟨0, 0⟩).1 :=
  ⟨⟨fun p hp => absurd hp (List.not_mem_nil p), List.Pairwise.nil⟩,
    (getGpuMutex_registry_spec MutexRegistry.init ⟨0, 0⟩ ⟨1, 0⟩
      ⟨fun p hp => absurd hp (List.not_mem_nil p), List.Pairwise.nil⟩).2.1
      (by decide)⟩

end StreamExecutorUtil

namespace GpuThunk

/-- C9: `ClearCompileTimeInfo` only nulls the compile-time source-node
reference (`op_`); the thunk's kind and profile annotation are identical
before and after the call, and the thunk state is exactly these three
fields, so nothing else can change. -/
theorem clearCompileTimeInfo_only_clears_op (t : Thunk) :
    (Thunk.ClearCompileTimeInfo t).op = none ∧
    (Thunk.ClearCompileTimeInfo t).kind = t.kind ∧
    Thunk.profileAnnotation (Thunk.ClearCompileTimeInfo t) = t.profileAnnotation ∧
    Thunk.ClearCompileTimeInfo t = { t with op := none } :=
  ⟨rfl, rfl, rfl, rfl⟩

end GpuThunk

namespace HostMemoryTransferAsyncifier

/-- C5 counterexample: with host tag 5, a copy whose source space is 5
(host) and destination space is 2 has differing memory spaces, one of them
the host tag, yet the pass leaves it untouched with no change — the actual
gating also requires the other side to be the default (device) space. -/
theorem handleCopy_gating_cex :
    Shape.memorySpace exParamHost.shape = (5 : Int) ∧
    Shape.memorySpace exCopyThird.shape = (2 : Int) ∧
    exHostColor = (5 : Int) ∧ (5 : Int) ≠ (2 : Int) ∧
    visitInstruction exHostColor exCopyThirdComp exCopyThird =
      Except.ok (exCopyThirdComp, false) :=
  ⟨rfl, rfl, rfl, by decide, rfl⟩

/-- C3 counterexample: the pass is not idempotent — on a computation with a
rewritable host-to-device copy the first run reports a change, and so does
the second run on the resulting computation (the original copy is left in
the graph and still matches the handled pattern). -/
theorem run_not_idempotent_cex :
    (Run exHostColor exCopyComp).2 = Except.ok true ∧
    (Run exHostColor (Run exHostColor exCopyComp).1).2 = Except.ok true :=
  ⟨rfl, rfl⟩

/-- C2 counterexample: on a host-to-device copy with one consumer the pass
rewrites (changed = true), yet the original copy instruction (id 1) is
still present in the resulting graph — it is not removed. -/
theorem handleCopy_keeps_original_cex :
    (Run exHostColor exCopyComp).2 = Except.ok true ∧
    ((Run exHostColor exCopyComp).1.find 1).map (fun i => i.opcode) =
      some HloOpcode.kCopy :=
  ⟨rfl, rfl⟩

/-- C4 counterexample: when a rewritable copy is visited before a
dynamic-slice that is missing a layout, the pass fails with the missing
layout error and the returned graph is mutated (six instructions instead of
the original four) — mutation is not rolled back on error. -/
theorem run_error_partial_mutation_cex :
    (Run exHostColor exErrComp).2 = Except.error "ds does not have a layout." ∧
    (Run exHostColor exErrComp).1.instructions.length = 6 ∧
    exErrComp.instructions.length = 4 :=
  ⟨rfl, rfl, rfl⟩

end HostMemoryTransferAsyncifier

namespace HostMemoryTransferAsyncifier

/-- C5 (amended): a copy with layouts present on source and destination is
rewritten exactly when one side's memory space is the host tag and the
other's is the default (device) space; any other combination — including
same-space copies and copies between host and a third space — is left
untouched, contributes no change, and is not an error. -/
theorem handleCopy_gating (hostColor : Int) (comp : Computation)
    (copy op0 : Instruction) (oid : Nat)
    (hop : copy.opcode = HloOpcode.kCopy)
    (hhead : copy.operands.head? = some oid)
    (hfind : comp.find oid = some op0)
    (hol : op0.shape.hasLayout = true)
    (hcl : copy.shape.hasLayout = true) :
    ((∃ comp', visitInstruction hostColor comp copy = Except.ok (comp', true)) ↔
      ((op0.shape.memorySpace = hostColor ∧
        copy.shape.memorySpace = kDefaultMemorySpace) ∨
       (op0.shape.memorySpace = kDefaultMemorySpace ∧
        copy.shape.memorySpace = hostColor))) ∧
    (¬ ((op0.shape.memorySpace = hostColor ∧
         copy.shape.memorySpace = kDefaultMemorySpace) ∨
        (op0.shape.memorySpace = kDefaultMemorySpace ∧
         copy.shape.memorySpace = hostColor)) →
      visitInstruction hostColor comp copy = Except.ok (comp, false)) := by
  have hv : visitInstruction hostColor comp copy = handleCopy hostColor comp copy := by
    unfold visitInstruction
    rw [hop]
  rw [hv]
  by_cases hg : (op0.shape.memorySpace = hostColor ∧
      copy.shape.memorySpace = kDefaultMemorySpace) ∨
      (op0.shape.memorySpace = kDefaultMemorySpace ∧
       copy.shape.memorySpace = hostColor)
  · constructor
    · simp only [handleCopy, hhead, hfind, hol, hcl]
      simp [hg]
    · exact fun hc => absurd hg hc
  · constructor
    · simp only [handleCopy, hhead, hfind, hol, hcl]
      simp [hg]
    · intro _
      simp only [handleCopy, hhead, hfind, hol, hcl]
      simp [hg]

/-- Witness for C5 on the concrete example: a host-to-device copy satisfies
the gating condition, so a rewrite happens. -/
theorem handleCopy_gating_witness :
    ∃ comp', visitInstruction exHostColor exCopyComp exCopy =
      Except.ok (comp', true) :=
  (handleCopy_gating exHostColor exCopyComp exCopy exParamHost 0
    rfl rfl rfl rfl rfl).1.mpr (Or.inl ⟨rfl, rfl⟩)

end HostMemoryTransferAsyncifier

namespace HostMemoryTransferAsyncifier

/-- C10: the dynamic-slice handler checks layouts only on the result shape
and the base (first) operand, before the memory-space gating — it errors if
and only if one of those two lacks a layout, regardless of memory spaces
and of the layouts of the slice-index operands; the dynamic-update-slice
handler's error condition involves only the result, base, and update
operands (a missing layout among those three, or — with all three present —
the mismatched-memory-space internal check). -/
theorem layout_check_coverage (hostColor : Int) (comp : Computation) :
    (∀ (ds op0 : Instruction) (oid : Nat),
      ds.opcode = HloOpcode.kDynamicSlice →
      ds.operands.head? = some oid →
      comp.find oid = some op0 →
      ((∃ e, visitInstruction hostColor comp ds = Except.error e) ↔
        (ds.shape.hasLayout = false ∨ op0.shape.hasLayout = false))) ∧
    (∀ (dus op0 up1 : Instruction) (oid uid : Nat),
      dus.opcode = HloOpcode.kDynamicUpdateSlice →
      dus.operands.head? = some oid →
      dus.operands[1]? = some uid →
      comp.find oid = some op0 →
      comp.find uid = some up1 →
      ((∃ e, visitInstruction hostColor comp dus = Except.error e) ↔
        (dus.shape.hasLayout = false ∨ op0.shape.hasLayout = false ∨
         up1.shape.hasLayout = false ∨
         (up1.shape.memorySpace = kDefaultMemorySpace ∧
          dus.shape.memorySpace = hostColor ∧
          op0.shape.memorySpace ≠ dus.shape.memorySpace)))) := by
  constructor
  · intro ds op0 oid hop hhead hfind
    have hv : visitInstruction hostColor comp ds = handleDynamicSlice hostColor comp ds := by
      unfold visitInstruction
      rw [hop]
    rw [hv]
    simp only [handleDynamicSlice, hhead, hfind]
    cases hdl : ds.shape.hasLayout with
    | false => simp [hdl]
    | true =>
      cases hol : op0.shape.hasLayout with
      | false => simp [hdl, hol]
      | true =>
        simp only [hdl, hol]
        by_cases h1 : op0.shape.memorySpace = hostColor
        · by_cases h2 : ds.shape.memorySpace = kDefaultMemorySpace
          · simp [h1, h2]
          · simp [h1, h2]
        · simp [h1]
  · intro dus op0 up1 oid uid hop hhead hget1 hfind hfind1
    have hv : visitInstruction hostColor comp dus =
        handleDynamicUpdateSlice hostColor comp dus := by
      unfold visitInstruction
      rw [hop]
    rw [hv]
    simp only [handleDynamicUpdateSlice, hhead, hget1, hfind, hfind1]
    cases hdl : dus.shape.hasLayout with
    | false => simp [hdl]
    | true =>
      cases hol : op0.shape.hasLayout with
      | false => simp [hdl, hol]
      | true =>
        cases hul : up1.shape.hasLayout with
        | false => simp [hdl, hol, hul]
        | true =>
          simp only [hdl, hol, hul]
          by_cases h1 : up1.shape.memorySpace = kDefaultMemorySpace
          · by_cases h2 : dus.shape.memorySpace = hostColor
            · by_cases h3 : op0.shape.memorySpace = dus.shape.memorySpace
              · have h4 : op0.shape.memorySpace = hostColor := h2 ▸ h3
                simp [h1, h2, h3, h4]
              · have h4 : ¬ op0.shape.memorySpace = hostColor := by
                  rw [← h2]
                  exact h3
                simp [h1, h2, h3, h4]
            · simp [h1, h2]
          · simp [h1]

/-- Witness for C10 on the concrete example: the dynamic-slice with a
layoutless result shape errors even though its operand lives in host space
and its spaces would otherwise have caused a skip. -/
theorem layout_check_coverage_witness :
    ∃ e, visitInstruction exHostColor exErrComp exBadSlice = Except.error e :=
  ((layout_check_coverage exHostColor exErrComp).1 exBadSlice exParamHost2 2
    rfl rfl rfl).mpr (Or.inl rfl)

end HostMemoryTransferAsyncifier

namespace HostMemoryTransferAsyncifier

/-- C2 (amended): for a copy the pass rewrites, it adds a copy-start whose
result is the tuple {destination shape, source shape, token}, adds a
copy-done with that single operand and the copy's original result shape,
and redirects every consumer of the copy to the copy-done — but the
original copy instruction is left in the graph (with its uses removed), not
removed from it. -/
theorem handleCopy_rewrite (hostColor : Int) (comp : Computation)
    (copy op0 : Instruction) (oid : Nat)
    (hop : copy.opcode = HloOpcode.kCopy)
    (hhead : copy.operands.head? = some oid)
    (hfind : comp.find oid = some op0)
    (hol : op0.shape.hasLayout = true)
    (hcl : copy.shape.hasLayout = true)
    (hg : (op0.shape.memorySpace = hostColor ∧
           copy.shape.memorySpace = kDefaultMemorySpace) ∨
          (op0.shape.memorySpace = kDefaultMemorySpace ∧
           copy.shape.memorySpace = hostColor))
    (hids : ∀ i ∈ comp.instructions, i.id < comp.nextId)
    (hmem : copy ∈ comp.instructions)
    (hoidne : oid ≠ copy.id) :
    visitInstruction hostColor comp copy = Except.ok
      (Computation.mk
        (comp.instructions.map (fun i => i.redirect copy.id (comp.nextId + 1)) ++
          [⟨comp.nextId, copy.name ++ "-start", HloOpcode.kCopyStart, [oid],
            Shape.tuple [copy.shape, op0.shape, contextShape]⟩,
           ⟨comp.nextId + 1, copy.name ++ "-done", HloOpcode.kCopyDone,
            [comp.nextId], copy.shape⟩])
        (if comp.root = copy.id then comp.nextId + 1 else comp.root)
        (comp.nextId + 2), true) ∧
    copy.redirect copy.id (comp.nextId + 1) ∈
      comp.instructions.map (fun i => i.redirect copy.id (comp.nextId + 1)) := by
  have hv : visitInstruction hostColor comp copy = handleCopy hostColor comp copy := by
    unfold visitInstruction
    rw [hop]
  have hne2 : ¬ (comp.nextId = copy.id) := by
    have := hids copy hmem
    omega
  constructor
  · rw [hv]
    simp only [handleCopy, hhead, hfind, hol, hcl]
    simp only [Computation.addInstruction, Computation.replaceAllUsesWith,
      Instruction.redirect, List.map_append, hg]
    simp [hg, hoidne, hne2]
  · exact List.mem_map_of_mem _ hmem

/-- Witness for C2 on the concrete example computation: the rewritten copy
(id 1, redirected to the new copy-done id 4) stays among the graph's
instructions. -/
theorem handleCopy_rewrite_witness :
    Instruction.redirect exCopy 1 4 ∈
      exCopyComp.instructions.map (fun i => Instruction.redirect i 1 4) :=
  (handleCopy_rewrite exHostColor exCopyComp exCopy exParamHost 0
    rfl rfl rfl rfl rfl (Or.inl ⟨rfl, rfl⟩) (by decide)
    (List.mem_cons_of_mem _ (List.mem_cons_self _ _)) (by decide)).2

end HostMemoryTransferAsyncifier

namespace HostMemoryTransferAsyncifier

/-- C4 (amended): a handled slice/update/copy instruction missing a
required layout makes the pass fail with an internal error naming the
offending node, aborting at that instruction: the failing visit applies no
mutation and the walk stops, so the returned graph is exactly the graph
before the failing visit — rewrites already applied to earlier-visited
instructions persist (the graph is not unchanged overall). -/
theorem run_error_behavior (hostColor : Int) :
    (∀ (id : Nat) (rest : List Nat) (c : Computation) (ch : Bool)
        (i : Instruction) (e : String),
      c.find id = some i →
      visitInstruction hostColor c i = Except.error e →
      RunAux hostColor (id :: rest) c ch = (c, Except.error e)) ∧
    (∀ (c : Computation) (i : Instruction) (e : String),
      visitInstruction hostColor c i = Except.error e →
      (i.opcode = HloOpcode.kDynamicSlice ∨
        i.opcode = HloOpcode.kDynamicUpdateSlice ∨
        i.opcode = HloOpcode.kCopy) ∧
      (e = i.name ++ " does not have a layout." ∨
       ∃ oid j, oid ∈ i.operands ∧ c.find oid = some j ∧
         (e = j.name ++ " does not have a layout." ∨
          e = i.name ++ "'s operand, " ++ j.name ++ ", does not have a layout." ∨
          e = i.name ++ "'s update, " ++ j.name ++ ", does not have a layout." ∨
          e = "Unexpected that " ++ j.name ++
            "'s memory space is not the same as the dynamic-update-slice."))) := by
  constructor
  · intro id rest c ch i e hfind hvis
    unfold RunAux
    rw [hfind]
    simp [hvis]
  · intro c i e hvis
    unfold visitInstruction at hvis
    split at hvis
    · next hopc =>
      refine ⟨Or.inl hopc, ?_⟩
      simp only [handleDynamicSlice] at hvis
      split at hvis
      · exact Except.noConfusion hvis
      · next oid hhead =>
        split at hvis
        · exact Except.noConfusion hvis
        · next op0 hfind =>
          split at hvis
          · injection hvis with h
            exact Or.inl h.symm
          · split at hvis
            · injection hvis with h
              exact Or.inr ⟨oid, op0, List.mem_of_mem_head? hhead, hfind,
                Or.inr (Or.inl h.symm)⟩
            · split at hvis
              · exact Except.noConfusion hvis
              · split at hvis
                · exact Except.noConfusion hvis
                · exact Except.noConfusion hvis
    · next hopc =>
      refine ⟨Or.inr (Or.inl hopc), ?_⟩
      simp only [handleDynamicUpdateSlice] at hvis
      split at hvis
      · exact Except.noConfusion hvis
      · next oid hhead =>
        split at hvis
        · exact Except.noConfusion hvis
        · next uid hget1 =>
          split at hvis
          · exact Except.noConfusion hvis
          · next op0 hfind =>
            split at hvis
            · exact Except.noConfusion hvis
            · next up1 hfind1 =>
              split at hvis
              · injection hvis with h
                exact Or.inl h.symm
              · split at hvis
                · injection hvis with h
                  exact Or.inr ⟨oid, op0, List.mem_of_mem_head? hhead, hfind,
                    Or.inr (Or.inl h.symm)⟩
                · split at hvis
                  · injection hvis with h
                    exact Or.inr ⟨uid, up1, List.getElem?_mem hget1, hfind1,
                      Or.inr (Or.inr (Or.inl h.symm))⟩
                  · split at hvis
                    · exact Except.noConfusion hvis
                    · split at hvis
                      · exact Except.noConfusion hvis
                      · split at hvis
                        · injection hvis with h
                          exact Or.inr ⟨oid, op0, List.mem_of_mem_head? hhead,
                            hfind, Or.inr (Or.inr (Or.inr h.symm))⟩
                        · exact Except.noConfusion hvis
    · next hopc =>
      refine ⟨Or.inr (Or.inr hopc), ?_⟩
      simp only [handleCopy] at hvis
      split at hvis
      · exact Except.noConfusion hvis
      · next oid hhead =>
        split at hvis
        · exact Except.noConfusion hvis
        · next op0 hfind =>
          split at hvis
          · injection hvis with h
            exact Or.inr ⟨oid, op0, List.mem_of_mem_head? hhead, hfind,
              Or.inl h.symm⟩
          · split at hvis
            · injection hvis with h
              exact Or.inl h.symm
            · split at hvis
              · exact Except.noConfusion hvis
              · exact Except.noConfusion hvis
    · exact Except.noConfusion hvis

/-- Witness for C4 on the concrete failing computation: visiting the
layoutless dynamic-slice aborts the walk with the missing layout error and
returns the graph as accumulated so far. -/
theorem run_error_behavior_witness :
    RunAux exHostColor [3] exErrComp false =
      (exErrComp, Except.error "ds does not have a layout.") :=
  (run_error_behavior exHostColor).1 3 [] exErrComp false exBadSlice
    "ds does not have a layout." rfl rfl

end HostMemoryTransferAsyncifier

namespace HostMemoryTransferAsyncifier

theorem find_some {c : Computation} {id : Nat} {i : Instruction}
    (h : c.find id = some i) : i ∈ c.instructions ∧ i.id = id := by
  unfold Computation.find at h
  refine ⟨List.mem_of_find?_eq_some h, ?_⟩
  have := List.find?_some h
  simpa using this

theorem find?_id_eq_of_mem : ∀ (l : List Instruction),
    (l.map (fun i => i.id)).Nodup →
    ∀ i ∈ l, l.find? (fun j => j.id == i.id) = some i := by
  intro l
  induction l with
  | nil => intro _ i hi; cases hi
  | cons a t ih =>
    intro hnd i hi
    rw [List.map_cons, List.nodup_cons] at hnd
    rcases List.mem_cons.mp hi with h | h
    · subst h
      rw [List.find?_cons_of_pos _ (by simp)]
    · have hne : ¬ (a.id == i.id) = true := by
        simp only [beq_iff_eq]
        intro hc
        exact hnd.1 (hc ▸ List.mem_map_of_mem (fun j => j.id) h)
      have hstep : List.find? (fun j => j.id == i.id) (a :: t) =
          List.find? (fun j => j.id == i.id) t :=
        List.find?_cons_of_neg t hne
      rw [hstep]
      exact ih hnd.2 i h

theorem find_eq_of_mem {c : Computation}
    (hnd : (c.instructions.map (fun i => i.id)).Nodup)
    {i : Instruction} (hm : i ∈ c.instructions) : c.find i.id = some i :=
  find?_id_eq_of_mem c.instructions hnd i hm

theorem find_unique {c : Computation}
    (hnd : (c.instructions.map (fun i => i.id)).Nodup)
    {id : Nat} {i x : Instruction} (hf : c.find id = some i)
    (hm : x ∈ c.instructions) (hx : x.id = id) : x = i := by
  have h2 := find_eq_of_mem hnd hm
  rw [hx, hf] at h2
  injection h2 with h2
  exact h2.symm

/-- An instruction the visitor leaves untouched in the given graph: the
visit returns the same graph and reports no change. -/
def Inert (hostColor : Int) (c : Computation) (i : Instruction) : Prop :=
  visitInstruction hostColor c i = Except.ok (c, false)

/-- What a successful visit of a non-copy instruction can do: nothing, or a
`createAsyncInstructions` rewrite. -/
theorem visit_cases (hostColor : Int) (c : Computation) (i : Instruction)
    (hnocopy : i.opcode ≠ HloOpcode.kCopy)
    {c2 : Computation} {ch : Bool}
    (h : visitInstruction hostColor c i = Except.ok (c2, ch)) :
    (c2 = c ∧ ch = false) ∨
    (ch = true ∧ ∃ ctxs, c2 = (c.createAsyncInstructions i ctxs).1) := by
  unfold visitInstruction at h
  split at h
  · simp only [handleDynamicSlice] at h
    split at h
    · injection h with h
      exact Or.inl ⟨(Prod.mk.injEq _ _ _ _ ▸ h).1.symm ▸ rfl, by injection h with h1 h2; exact h2.symm ▸ rfl⟩
    · split at h
      · injection h with h
        injection h with h1 h2
        exact Or.inl ⟨h1.symm, h2.symm⟩
      · split at h
        · exact Except.noConfusion h
        · split at h
          · exact Except.noConfusion h
          · split at h
            · injection h with h
              injection h with h1 h2
              exact Or.inl ⟨h1.symm, h2.symm⟩
            · split at h
              · injection h with h
                injection h with h1 h2
                exact Or.inl ⟨h1.symm, h2.symm⟩
              · injection h with h
                injection h with h1 h2
                exact Or.inr ⟨h2.symm, [contextShape, transferBytesShape], h1.symm⟩
  · simp only [handleDynamicUpdateSlice] at h
    split at h
    · injection h with h
      injection h with h1 h2
      exact Or.inl ⟨h1.symm, h2.symm⟩
    · split at h
      · injection h with h
        injection h with h1 h2
        exact Or.inl ⟨h1.symm, h2.symm⟩
      · split at h
        · injection h with h
          injection h with h1 h2
          exact Or.inl ⟨h1.symm, h2.symm⟩
        · split at h
          · injection h with h
            injection h with h1 h2
            exact Or.inl ⟨h1.symm, h2.symm⟩
          · split at h
            · exact Except.noConfusion h
            · split at h
              · exact Except.noConfusion h
              · split at h
                · exact Except.noConfusion h
                · split at h
                  · injection h with h
                    injection h with h1 h2
                    exact Or.inl ⟨h1.symm, h2.symm⟩
                  · split at h
                    · injection h with h
                      injection h with h1 h2
                      exact Or.inl ⟨h1.symm, h2.symm⟩
                    · split at h
                      · exact Except.noConfusion h
                      · injection h with h
                        injection h with h1 h2
                        exact Or.inr ⟨h2.symm, [contextShape], h1.symm⟩
  · next hopc => exact absurd hopc hnocopy
  · injection h with h
    injection h with h1 h2
    exact Or.inl ⟨h1.symm, h2.symm⟩

end HostMemoryTransferAsyncifier

namespace HostMemoryTransferAsyncifier

theorem redirect_id (i : Instruction) (a b : Nat) : (i.redirect a b).id = i.id := rfl

theorem redirect_opcode (i : Instruction) (a b : Nat) :
    (i.redirect a b).opcode = i.opcode := rfl

theorem redirect_shape (i : Instruction) (a b : Nat) :
    (i.redirect a b).shape = i.shape := rfl

theorem redirect_operands (i : Instruction) (a b : Nat) :
    (i.redirect a b).operands = i.operands.map (fun o => if o = a then b else o) := rfl

theorem find?_id_map_filter (f : Instruction → Instruction)
    (hf : ∀ i, (f i).id = i.id) (rid oid : Nat) (hne : oid ≠ rid) :
    ∀ (l : List Instruction) (t : Instruction),
      l.find? (fun j => j.id == oid) = some t →
      ((l.map f).filter (fun j => j.id != rid)).find? (fun j => j.id == oid) =
        some (f t) := by
  intro l
  induction l with
  | nil => intro t ht; cases ht
  | cons a l' ih =>
    intro t ht
    by_cases ha : a.id = oid
    · have hpos : List.find? (fun j => j.id == oid) (a :: l') = some a := by
        have : ((fun j => j.id == oid) a) = true := by simp [ha]
        exact List.find?_cons_of_pos l' this
      rw [hpos] at ht
      injection ht with ht
      subst ht
      have hkeep : ((f a).id != rid) = true := by
        simp [hf, ha, hne]
      simp only [List.map_cons, List.filter_cons, hkeep, if_true]
      have : ((fun j => j.id == oid) (f a)) = true := by simp [hf, ha]
      exact List.find?_cons_of_pos _ this
    · have hneg : List.find? (fun j => j.id == oid) (a :: l') =
          List.find? (fun j => j.id == oid) l' := by
        refine List.find?_cons_of_neg l' ?_
        simp [ha]
      rw [hneg] at ht
      by_cases har : a.id = rid
      · have hdrop : ((f a).id != rid) = false := by simp [hf, har]
        simp only [List.map_cons, List.filter_cons, hdrop, if_false]
        exact ih t ht
      · have hkeep : ((f a).id != rid) = true := by simp [hf, har]
        simp only [List.map_cons, List.filter_cons, hkeep, if_true]
        have hneg2 : List.find? (fun j => j.id == oid)
            (f a :: (l'.map f).filter (fun j => j.id != rid)) =
            List.find? (fun j => j.id == oid)
              ((l'.map f).filter (fun j => j.id != rid)) := by
          refine List.find?_cons_of_neg _ ?_
          simp [hf, ha]
        rw [hneg2]
        exact ih t ht

end HostMemoryTransferAsyncifier

namespace HostMemoryTransferAsyncifier

theorem createAsync_spec (c : Computation) (r : Instruction) (ctxs : List Shape)
    (hlt : r.id < c.nextId) :
    ((c.createAsyncInstructions r ctxs).1).instructions =
      (c.instructions.map (fun j => j.redirect r.id (c.nextId + 1))).filter
        (fun j => j.id != r.id) ++
      [⟨c.nextId, r.name ++ "-start", HloOpcode.kAsyncStart,
        r.operands.map (fun o => if o = r.id then c.nextId + 1 else o),
        Shape.tuple (r.shape :: ctxs)⟩,
       ⟨c.nextId + 1, r.name ++ "-done", HloOpcode.kAsyncDone, [c.nextId],
        r.shape⟩] ∧
    ((c.createAsyncInstructions r ctxs).1).nextId = c.nextId + 2 := by
  have hne3 : ¬ (c.nextId = r.id) := by omega
  have hne4 : ¬ (c.nextId + 1 = r.id) := by omega
  constructor
  · simp [Computation.createAsyncInstructions, Computation.addInstruction,
      Computation.replaceAllUsesWith, Computation.removeInstruction,
      Instruction.redirect, List.filter_append, hne3, hne4]
  · rfl

theorem ids_map_filter (f : Instruction → Instruction)
    (hf : ∀ i, (f i).id = i.id) (rid : Nat) :
    ∀ l : List Instruction,
      ((l.map f).filter (fun j => j.id != rid)).map (fun j => j.id) =
        (l.map (fun j => j.id)).filter (fun x => x != rid) := by
  intro l
  induction l with
  | nil => rfl
  | cons a l' ih =>
    by_cases h : a.id = rid
    · simp [List.map_cons, List.filter_cons, hf, h, ih]
    · simp [List.map_cons, List.filter_cons, hf, h, ih]

theorem operand_lt {c : Computation} (hwf : c.WF) {i : Instruction}
    (hi : i ∈ c.instructions) {oid : Nat} (ho : oid ∈ i.operands) :
    oid < c.nextId := by
  obtain ⟨w1, _, w3, _⟩ := hwf
  obtain ⟨t, ht, hid⟩ := w3 i hi oid ho
  exact hid ▸ w1 t ht

theorem wf_createAsync (c : Computation) (r : Instruction) (ctxs : List Shape)
    (hwf : c.WF) (hr : r ∈ c.instructions) :
    ((c.createAsyncInstructions r ctxs).1).WF := by
  obtain ⟨w1, w2, w3, w4⟩ := hwf
  have hlt : r.id < c.nextId := w1 r hr
  obtain ⟨hins, hnext⟩ := createAsync_spec c r ctxs hlt
  have hidf : ∀ i : Instruction, (Instruction.redirect i r.id (c.nextId + 1)).id = i.id :=
    fun i => rfl
  have hmemleft : ∀ x ∈ (c.instructions.map
        (fun j => j.redirect r.id (c.nextId + 1))).filter (fun j => j.id != r.id),
      ∃ j ∈ c.instructions, j.id ≠ r.id ∧ x = j.redirect r.id (c.nextId + 1) := by
    intro x hx
    rw [List.mem_filter] at hx
    obtain ⟨hx1, hx2⟩ := hx
    rw [List.mem_map] at hx1
    obtain ⟨j, hj, hjx⟩ := hx1
    refine ⟨j, hj, ?_, hjx.symm⟩
    intro hc
    rw [← hjx] at hx2
    simp [hidf, hc] at hx2
  refine ⟨?_, ?_, ?_, ?_⟩
  · intro i hi
    rw [hins] at hi
    rw [hnext]
    rcases List.mem_append.mp hi with h | h
    · obtain ⟨j, hj, _, hx⟩ := hmemleft i h
      have := w1 j hj
      rw [hx, hidf]
      omega
    · rcases List.mem_cons.mp h with h | h
      · rw [h]
        show c.nextId < c.nextId + 2
        omega
      · rcases List.mem_cons.mp h with h | h
        · rw [h]
          show c.nextId + 1 < c.nextId + 2
          omega
        · cases h
  · have hideq : ((c.createAsyncInstructions r ctxs).1).instructions.map
        (fun j => j.id) =
        ((c.instructions.map (fun j => j.id)).filter (fun x => x != r.id)) ++
          [c.nextId, c.nextId + 1] := by
      rw [hins, List.map_append, ids_map_filter _ hidf]
      rfl
    rw [hideq, List.nodup_append]
    refine ⟨(w2.filter _), by simp, ?_⟩
    intro x hx
    have hxmem : x ∈ c.instructions.map (fun j => j.id) :=
      List.mem_of_mem_filter hx
    rw [List.mem_map] at hxmem
    obtain ⟨j, hj, hjx⟩ := hxmem
    have := w1 j hj
    simp only [List.mem_cons, List.mem_singleton]
    intro hc
    rcases hc with hc | hc
    · omega
    · rcases hc with hc | hc
      · omega
      · cases hc
  · intro i hi oid hoid
    rw [hins] at hi
    have hstartmem : (⟨c.nextId, r.name ++ "-start", HloOpcode.kAsyncStart,
        r.operands.map (fun o => if o = r.id then c.nextId + 1 else o),
        Shape.tuple (r.shape :: ctxs)⟩ : Instruction) ∈
        ((c.createAsyncInstructions r ctxs).1).instructions := by
      rw [hins]
      exact List.mem_append_right _ (List.mem_cons_self _ _)
    have hdonemem : (⟨c.nextId + 1, r.name ++ "-done", HloOpcode.kAsyncDone,
        [c.nextId], r.shape⟩ : Instruction) ∈
        ((c.createAsyncInstructions r ctxs).1).instructions := by
      rw [hins]
      exact List.mem_append_right _
        (List.mem_cons_of_mem _ (List.mem_cons_self _ _))
    have hkept : ∀ (j : Instruction), j ∈ c.instructions → j.id ≠ r.id →
        j.redirect r.id (c.nextId + 1) ∈
          ((c.createAsyncInstructions r ctxs).1).instructions := by
      intro j hj hne
      rw [hins]
      refine List.mem_append_left _ (List.mem_filter.mpr ⟨List.mem_map_of_mem _ hj, ?_⟩)
      simp [hidf, hne]
    have hoper : ∀ (j : Instruction), j ∈ c.instructions →
        oid ∈ j.operands.map (fun o => if o = r.id then c.nextId + 1 else o) →
        ∃ t ∈ ((c.createAsyncInstructions r ctxs).1).instructions, t.id = oid := by
      intro j hj hm
      rw [List.mem_map] at hm
      obtain ⟨o, ho, hoe⟩ := hm
      by_cases hor : o = r.id
      · rw [hor] at hoe
        simp at hoe
        exact ⟨_, hdonemem, by rw [← hoe]⟩
      · rw [if_neg hor] at hoe
        subst hoe
        obtain ⟨t, ht, htid⟩ := w3 j hj o ho
        have htne : t.id ≠ r.id := by
          rw [htid]
          exact hor
        exact ⟨t.redirect r.id (c.nextId + 1), hkept t ht htne, by rw [hidf, htid]⟩
    rcases List.mem_append.mp hi with h | h
    · obtain ⟨j, hj, hjne, hx⟩ := hmemleft i h
      rw [hx, redirect_operands] at hoid
      exact hoper j hj hoid
    · rcases List.mem_cons.mp h with h | h
      · rw [h] at hoid
        simp only at hoid
        exact hoper r hr hoid
      · rcases List.mem_cons.mp h with h | h
        · rw [h] at hoid
          simp only [List.mem_singleton] at hoid
          exact ⟨_, hstartmem, by rw [hoid]⟩
        · cases h
  · intro i hi oid hoid
    rw [hins] at hi
    rcases List.mem_append.mp hi with h | h
    · obtain ⟨j, hj, hjne, hx⟩ := hmemleft i h
      rw [hx, redirect_operands] at hoid
      rw [hx, hidf]
      rw [List.mem_map] at hoid
      obtain ⟨o, ho, hoe⟩ := hoid
      by_cases hor : o = r.id
      · rw [if_pos hor] at hoe
        have := w1 j hj
        omega
      · rw [if_neg hor] at hoe
        subst hoe
        exact w4 j hj o ho
    · rcases List.mem_cons.mp h with h | h
      · rw [h] at hoid ⊢
        simp only at hoid ⊢
        rw [List.mem_map] at hoid
        obtain ⟨o, ho, hoe⟩ := hoid
        by_cases hor : o = r.id
        · rw [if_pos hor] at hoe
          omega
        · rw [if_neg hor] at hoe
          subst hoe
          have := operand_lt ⟨w1, w2, w3, w4⟩ hr ho
          omega
      · rcases List.mem_cons.mp h with h | h
        · rw [h] at hoid ⊢
          simp only [List.mem_singleton] at hoid
          subst hoid
          simp
        · cases h

end HostMemoryTransferAsyncifier

namespace HostMemoryTransferAsyncifier

theorem find_after_rewrite (c : Computation) (r : Instruction) (ctxs : List Shape)
    (hlt : r.id < c.nextId) (oid : Nat) (hne : oid ≠ r.id) (t : Instruction)
    (ht : c.find oid = some t) :
    ((c.createAsyncInstructions r ctxs).1).find oid =
      some (t.redirect r.id (c.nextId + 1)) := by
  obtain ⟨hins, _⟩ := createAsync_spec c r ctxs hlt
  unfold Computation.find at ht ⊢
  rw [hins, List.find?_append]
  have hleft := find?_id_map_filter (fun j => j.redirect r.id (c.nextId + 1))
    (fun i => rfl) r.id oid hne c.instructions t ht
  rw [hleft]
  rfl

theorem find_done_after_rewrite (c : Computation) (r : Instruction)
    (ctxs : List Shape) (hwf : c.WF) (hr : r ∈ c.instructions) :
    ((c.createAsyncInstructions r ctxs).1).find (c.nextId + 1) =
      some ⟨c.nextId + 1, r.name ++ "-done", HloOpcode.kAsyncDone, [c.nextId],
        r.shape⟩ := by
  obtain ⟨w1, w2, w3, w4⟩ := hwf
  have hlt := w1 r hr
  obtain ⟨hins, _⟩ := createAsync_spec c r ctxs hlt
  unfold Computation.find
  rw [hins, List.find?_append]
  have hnone : ((c.instructions.map (fun j => j.redirect r.id (c.nextId + 1))).filter
      (fun j => j.id != r.id)).find? (fun i => i.id == c.nextId + 1) = none := by
    rw [List.find?_eq_none]
    intro x hx
    have hxm : x ∈ c.instructions.map (fun j => j.redirect r.id (c.nextId + 1)) :=
      List.mem_of_mem_filter hx
    rw [List.mem_map] at hxm
    obtain ⟨jj, hjj, hjx⟩ := hxm
    have := w1 jj hjj
    have hxid : x.id = jj.id := by rw [← hjx]; rfl
    simp [hxid]
    omega
  rw [hnone]
  have hstart : ((⟨c.nextId, r.name ++ "-start", HloOpcode.kAsyncStart,
      r.operands.map (fun o => if o = r.id then c.nextId + 1 else o),
      Shape.tuple (r.shape :: ctxs)⟩ : Instruction).id == c.nextId + 1) = false := by
    simp
  simp [List.find?_cons, hstart]

theorem inert_transfer (hostColor : Int) (c : Computation) (r j : Instruction)
    (ctxs : List Shape) (hwf : c.WF) (hr : r ∈ c.instructions)
    (hj : j ∈ c.instructions) (_hjne : j.id ≠ r.id)
    (hjnocopy : j.opcode ≠ HloOpcode.kCopy)
    (hinert : Inert hostColor c j) :
    Inert hostColor (c.createAsyncInstructions r ctxs).1
      (j.redirect r.id (c.nextId + 1)) := by
  obtain ⟨w1, w2, w3, w4⟩ := hwf
  have hlt : r.id < c.nextId := w1 r hr
  have hfindop : ∀ oid t, oid ∈ j.operands → c.find oid = some t →
      ∃ t', ((c.createAsyncInstructions r ctxs).1).find
          (if oid = r.id then c.nextId + 1 else oid) = some t' ∧
        t'.shape = t.shape := by
    intro oid t ho ht
    by_cases hor : oid = r.id
    · rw [if_pos hor]
      refine ⟨_, find_done_after_rewrite c r ctxs ⟨w1, w2, w3, w4⟩ hr, ?_⟩
      have hrf := find_eq_of_mem w2 hr
      rw [hor] at ht
      rw [ht] at hrf
      injection hrf with hrf
      rw [← hrf]
    · rw [if_neg hor]
      exact ⟨_, find_after_rewrite c r ctxs hlt oid hor t ht, rfl⟩
  unfold Inert at hinert ⊢
  cases hopc : j.opcode with
  | kCopy => exact absurd hopc hjnocopy
  | kDynamicSlice =>
    have hh : handleDynamicSlice hostColor c j = Except.ok (c, false) := by
      unfold visitInstruction at hinert
      rw [hopc] at hinert
      exact hinert
    unfold visitInstruction
    rw [redirect_opcode, hopc]
    show handleDynamicSlice hostColor ((c.createAsyncInstructions r ctxs).1)
      (j.redirect r.id (c.nextId + 1)) = _
    unfold handleDynamicSlice at hh
    split at hh
    · next hhead =>
      have hops : j.operands = [] := List.head?_eq_none_iff.mp hhead
      simp [handleDynamicSlice, redirect_operands, hops]
    · next oid hhead =>
      split at hh
      · next hfindn =>
        obtain ⟨tgt, htgt, hid⟩ := w3 j hj oid (List.mem_of_mem_head? hhead)
        have hfe := find_eq_of_mem w2 htgt
        rw [hid] at hfe
        rw [hfindn] at hfe
        cases hfe
      · next op0 hfindo =>
        have hheadn : (j.redirect r.id (c.nextId + 1)).operands.head? =
            some (if oid = r.id then c.nextId + 1 else oid) := by
          rw [redirect_operands, List.head?_map, hhead]
          rfl
        obtain ⟨t', hft', hts⟩ := hfindop oid op0
          (List.mem_of_mem_head? hhead) hfindo
        split at hh
        · exact Except.noConfusion hh
        · next hl1 =>
          split at hh
          · exact Except.noConfusion hh
          · next hl2 =>
            split at hh
            · next hsk =>
              simp only [handleDynamicSlice, hheadn, hft', redirect_shape, hts]
              rw [if_neg (by simpa using hl1), if_neg (by simpa using hl2),
                if_pos hsk]
            · next hsk =>
              split at hh
              · next hsk2 =>
                simp only [handleDynamicSlice, hheadn, hft', redirect_shape, hts]
                rw [if_neg (by simpa using hl1), if_neg (by simpa using hl2),
                  if_neg hsk, if_pos hsk2]
              · injection hh with hh
                injection hh with hh1 hh2
                exact absurd hh2.symm (by simp)
  | kDynamicUpdateSlice =>
    have hh : handleDynamicUpdateSlice hostColor c j = Except.ok (c, false) := by
      unfold visitInstruction at hinert
      rw [hopc] at hinert
      exact hinert
    unfold visitInstruction
    rw [redirect_opcode, hopc]
    show handleDynamicUpdateSlice hostColor ((c.createAsyncInstructions r ctxs).1)
      (j.redirect r.id (c.nextId + 1)) = _
    unfold handleDynamicUpdateSlice at hh
    split at hh
    · next hhead =>
      have hops : j.operands = [] := List.head?_eq_none_iff.mp hhead
      simp [handleDynamicUpdateSlice, redirect_operands, hops]
    · next oid hhead =>
      split at hh
      · next hget1 =>
        have hget1' : (j.redirect r.id (c.nextId + 1)).operands[1]? = none := by
          rw [redirect_operands, List.getElem?_map, hget1]
          rfl
        have hheadn : (j.redirect r.id (c.nextId + 1)).operands.head? =
            some (if oid = r.id then c.nextId + 1 else oid) := by
          rw [redirect_operands, List.head?_map, hhead]
          rfl
        simp [handleDynamicUpdateSlice, hheadn, hget1']
      · next uid hget1 =>
        have hheadn : (j.redirect r.id (c.nextId + 1)).operands.head? =
            some (if oid = r.id then c.nextId + 1 else oid) := by
          rw [redirect_operands, List.head?_map, hhead]
          rfl
        have hget1n : (j.redirect r.id (c.nextId + 1)).operands[1]? =
            some (if uid = r.id then c.nextId + 1 else uid) := by
          rw [redirect_operands, List.getElem?_map, hget1]
          rfl
        split at hh
        · next hfindn =>
          obtain ⟨tgt, htgt, hid⟩ := w3 j hj oid (List.mem_of_mem_head? hhead)
          have hfe := find_eq_of_mem w2 htgt
          rw [hid] at hfe
          rw [hfindn] at hfe
          cases hfe
        · next op0 hfindo =>
          split at hh
          · next hfindn =>
            obtain ⟨tgt, htgt, hid⟩ := w3 j hj uid (List.getElem?_mem hget1)
            have hfe := find_eq_of_mem w2 htgt
            rw [hid] at hfe
            rw [hfindn] at hfe
            cases hfe
          · next up1 hfindu =>
            obtain ⟨t0, hft0, hts0⟩ := hfindop oid op0
              (List.mem_of_mem_head? hhead) hfindo
            obtain ⟨t1, hft1, hts1⟩ := hfindop uid up1
              (List.getElem?_mem hget1) hfindu
            split at hh
            · exact Except.noConfusion hh
            · next hl1 =>
              split at hh
              · exact Except.noConfusion hh
              · next hl2 =>
                split at hh
                · exact Except.noConfusion hh
                · next hl3 =>
                  split at hh
                  · next hsk =>
                    simp only [handleDynamicUpdateSlice, hheadn, hget1n, hft0,
                      hft1, redirect_shape, hts0, hts1]
                    rw [if_neg (by simpa using hl1), if_neg (by simpa using hl2),
                      if_neg (by simpa using hl3), if_pos hsk]
                  · next hsk =>
                    split at hh
                    · next hsk2 =>
                      simp only [handleDynamicUpdateSlice, hheadn, hget1n, hft0,
                        hft1, redirect_shape, hts0, hts1]
                      rw [if_neg (by simpa using hl1), if_neg (by simpa using hl2),
                        if_neg (by simpa using hl3), if_neg hsk, if_pos hsk2]
                    · next hsk2 =>
                      split at hh
                      · exact Except.noConfusion hh
                      · injection hh with hh
                        injection hh with hh1 hh2
                        exact absurd hh2.symm (by simp)
  | kCopyStart =>
    unfold visitInstruction
    rw [redirect_opcode, hopc]
  | kCopyDone =>
    unfold visitInstruction
    rw [redirect_opcode, hopc]
  | kAsyncStart =>
    unfold visitInstruction
    rw [redirect_opcode, hopc]
  | kAsyncDone =>
    unfold visitInstruction
    rw [redirect_opcode, hopc]
  | kParameter =>
    unfold visitInstruction
    rw [redirect_opcode, hopc]
  | kOther =>
    unfold visitInstruction
    rw [redirect_opcode, hopc]

end HostMemoryTransferAsyncifier

namespace HostMemoryTransferAsyncifier

theorem mem_createAsync_cases {c : Computation} {r : Instruction}
    {ctxs : List Shape} (hlt : r.id < c.nextId) {x : Instruction}
    (hx : x ∈ ((c.createAsyncInstructions r ctxs).1).instructions) :
    (∃ j ∈ c.instructions, j.id ≠ r.id ∧ x = j.redirect r.id (c.nextId + 1)) ∨
    x = ⟨c.nextId, r.name ++ "-start", HloOpcode.kAsyncStart,
      r.operands.map (fun o => if o = r.id then c.nextId + 1 else o),
      Shape.tuple (r.shape :: ctxs)⟩ ∨
    x = ⟨c.nextId + 1, r.name ++ "-done", HloOpcode.kAsyncDone, [c.nextId],
      r.shape⟩ := by
  obtain ⟨hins, _⟩ := createAsync_spec c r ctxs hlt
  rw [hins] at hx
  rcases List.mem_append.mp hx with h | h
  · left
    rw [List.mem_filter] at h
    obtain ⟨h1, h2⟩ := h
    rw [List.mem_map] at h1
    obtain ⟨j, hj, hjx⟩ := h1
    refine ⟨j, hj, ?_, hjx.symm⟩
    intro hc
    rw [← hjx] at h2
    simp [redirect_id, hc] at h2
  · right
    rcases List.mem_cons.mp h with h | h
    · exact Or.inl h
    · rcases List.mem_cons.mp h with h | h
      · exact Or.inr h
      · cases h

theorem runAux_establishes_stable (hostColor : Int) :
    ∀ (ids : List Nat) (c : Computation) (b : Bool) (c' : Computation) (ch : Bool),
      c.WF →
      (∀ i ∈ c.instructions, i.opcode ≠ HloOpcode.kCopy) →
      (∀ i ∈ c.instructions, Inert hostColor c i ∨ i.id ∈ ids) →
      RunAux hostColor ids c b = (c', Except.ok ch) →
      c'.WF ∧ ∀ i ∈ c'.instructions, Inert hostColor c' i := by
  intro ids
  induction ids with
  | nil =>
    intro c b c' ch hwf hnc hinv hrun
    unfold RunAux at hrun
    injection hrun with h1 h2
    subst h1
    refine ⟨hwf, fun i hi => ?_⟩
    rcases hinv i hi with h | h
    · exact h
    · cases h
  | cons id rest ih =>
    intro c b c' ch hwf hnc hinv hrun
    unfold RunAux at hrun
    split at hrun
    · next hf =>
      refine ih c b c' ch hwf hnc ?_ hrun
      intro i hi
      rcases hinv i hi with h | h
      · exact Or.inl h
      · rcases List.mem_cons.mp h with h | h
        · exfalso
          have hfe := find_eq_of_mem hwf.2.1 hi
          rw [h, hf] at hfe
          cases hfe
        · exact Or.inr h
    · next r hf =>
      split at hrun
      · injection hrun with h1 h2
        cases h2
      · next c2 ch2 hv =>
        obtain ⟨hrmem, hrid⟩ := find_some hf
        have hrnocopy := hnc r hrmem
        rcases visit_cases hostColor c r hrnocopy hv with
          ⟨hceq, hcheq⟩ | ⟨hcheq, ctxs, hceq⟩
        · rw [hceq, hcheq] at hrun
          rw [hceq, hcheq] at hv
          refine ih c (b || false) c' ch hwf hnc ?_ hrun
          intro i hi
          rcases hinv i hi with h | h
          · exact Or.inl h
          · rcases List.mem_cons.mp h with h | h
            · have hieq : i = r := find_unique hwf.2.1 hf hi h
              subst hieq
              exact Or.inl hv
            · exact Or.inr h
        · rw [hceq, hcheq] at hrun
          have hlt : r.id < c.nextId := hwf.1 r hrmem
          have hwf2 := wf_createAsync c r ctxs hwf hrmem
          refine ih _ (b || true) c' ch hwf2 ?_ ?_ hrun
          · intro i hi
            rcases mem_createAsync_cases hlt hi with ⟨j, hj, hjne, hx⟩ | h | h
            · rw [hx, redirect_opcode]
              exact hnc j hj
            · rw [h]
              intro hc
              cases hc
            · rw [h]
              intro hc
              cases hc
          · intro i hi
            rcases mem_createAsync_cases hlt hi with ⟨j, hj, hjne, hx⟩ | h | h
            · rcases hinv j hj with hIn | hIn
              · exact Or.inl (hx ▸ inert_transfer hostColor c r j ctxs hwf
                  hrmem hj hjne (hnc j hj) hIn)
              · rcases List.mem_cons.mp hIn with hIn | hIn
                · exfalso
                  have hjeq : j = r := find_unique hwf.2.1 hf hj hIn
                  rw [hjeq] at hjne
                  exact hjne rfl
                · refine Or.inr ?_
                  rw [hx, redirect_id]
                  exact hIn
            · subst h
              exact Or.inl rfl
            · subst h
              exact Or.inl rfl

theorem runAux_stable (hostColor : Int) :
    ∀ (ids : List Nat) (c : Computation) (b : Bool),
      (∀ id ∈ ids, ∀ i, c.find id = some i → Inert hostColor c i) →
      RunAux hostColor ids c b = (c, Except.ok b) := by
  intro ids
  induction ids with
  | nil => intro c b _; rfl
  | cons id rest ih =>
    intro c b hst
    unfold RunAux
    cases hf : c.find id with
    | none => exact ih c b (fun id' hid' => hst id' (List.mem_cons_of_mem _ hid'))
    | some i =>
      have hin := hst id (List.mem_cons_self _ _) i hf
      rw [Inert] at hin
      simp only [hin]
      have hrec := ih c (b || false)
        (fun id' hid' => hst id' (List.mem_cons_of_mem _ hid'))
      rw [Bool.or_false] at hrec
      simpa using hrec

/-- C3 (amended): for a well-formed program that contains no copy
instruction, a successful run of the pass reaches a fixed point — a second
run performs no rewrites, leaves the graph unchanged and returns
changed = false. (With copies this fails: a rewritten copy is left in the
graph, still matches the handled pattern, and is rewritten again.) -/
theorem run_idempotent_no_copies (hostColor : Int) (comp comp' : Computation)
    (ch : Bool) (hwf : comp.WF)
    (hnc : ∀ i ∈ comp.instructions, i.opcode ≠ HloOpcode.kCopy)
    (hrun : Run hostColor comp = (comp', Except.ok ch)) :
    Run hostColor comp' = (comp', Except.ok false) := by
  unfold Run at hrun
  obtain ⟨hwf', hst⟩ := runAux_establishes_stable hostColor
    (comp.instructions.map (fun i => i.id)) comp false comp' ch hwf hnc
    (fun i hi => Or.inr (List.mem_map_of_mem _ hi)) hrun
  unfold Run
  exact runAux_stable hostColor _ comp' false
    (fun id hid i hfind => hst i (find_some hfind).1)

/-- Witness for C3's amended idempotence on a concrete copy-free program:
the pass rewrites a host-to-device dynamic-slice on the first run and is a
no-op on the second. -/
theorem run_idempotent_no_copies_witness :
    Run exHostColor (Run exHostColor exSliceComp).1 =
      ((Run exHostColor exSliceComp).1, Except.ok false) :=
  run_idempotent_no_copies exHostColor exSliceComp
    (Run exHostColor exSliceComp).1 true
    (by
      refine ⟨?_, ?_, ?_, ?_⟩
      · decide
      · decide
      · decide
      · decide)
    (by
      intro i hi
      rcases List.mem_cons.mp hi with h | h
      · rw [h]
        intro hc
        cases hc
      · rcases List.mem_cons.mp h with h | h
        · rw [h]
          intro hc
          cases hc
        · cases h)
    rfl

end HostMemoryTransferAsyncifier
